import Mathlib

/-!
Shallow embedding of the socket multiplexing and poll-scheduling layer of
`smol-tcp` (`src/socket/mod.rs`): the `PollAt` scheduling hint, the `Socket`
closed sum type, the `AnySocket` upcast/downcast capability, the per-tick
`Context` snapshot, and the generation-tagged socket arena (`Set`/`Meta`),
together with theorems settling the specification claims.
-/

namespace SmolTcp

/-- Timestamps. The crate's `Instant` wraps a signed millisecond count and
compares by it, so we embed it as `Int`. -/
abbrev Instant := Int

/-- Device capability descriptor carried by `Context` (`caps` field).
The `phy` module is outside the excerpt; the fields follow the spec's
description: per-protocol checksum-offload flags, max transmission unit,
optional max burst size. -/
structure DeviceCapabilities where
  checksumIpv4 : Bool
  checksumUdp : Bool
  checksumTcp : Bool
  checksumIcmpv4 : Bool
  max_transmission_unit : Nat
  max_burst_size : Option Nat
deriving DecidableEq, Repr

/-- Data passed to sockets when processing (`Context` in `mod.rs`):
current timestamp, device capabilities, optional link-layer address,
optional short network identifier. -/
structure Context where
  now : Instant
  hardware_addr : Option (List Nat)
  pan_id : Option Nat
  caps : DeviceCapabilities
deriving DecidableEq, Repr

/-- Gives an indication on the next time the socket should be polled
(`PollAt` in `mod.rs`): polled immediately, at a given `Instant`, or only
on external changes. -/
inductive PollAt where
  | Now : PollAt
  | Time : Instant → PollAt
  | Ingress : PollAt
deriving DecidableEq, Repr

/-- Modelled from the spec: the uniform PollAt computation policy (§4.2)
that every protocol socket implements, the protocol modules being outside
the excerpt. Return `Now` if data is ready to send or a timer has already
expired relative to `ctx.now`; else `Time(deadline)` for a pending future
deadline; else `Ingress`. -/
def pollAtPolicy (readyToSend : Bool) (deadline : Option Instant)
    (cx : Context) : PollAt :=
  if readyToSend then .Now
  else
    match deadline with
    | some t => if t ≤ cx.now then .Now else .Time t
    | none => .Ingress

/-- Modelled from the spec: the raw-socket state visible to this layer
(`RawSocket`, external collaborator): egress readiness and pending timer. -/
structure RawSocket where
  readyToSend : Bool
  deadline : Option Instant
deriving DecidableEq, Repr

/-- Modelled from the spec: the ICMP-socket state visible to this layer. -/
structure IcmpSocket where
  readyToSend : Bool
  deadline : Option Instant
deriving DecidableEq, Repr

/-- Modelled from the spec: the UDP-socket state visible to this layer. -/
structure UdpSocket where
  readyToSend : Bool
  deadline : Option Instant
deriving DecidableEq, Repr

/-- Modelled from the spec: the TCP-socket state visible to this layer. -/
structure TcpSocket where
  readyToSend : Bool
  deadline : Option Instant
deriving DecidableEq, Repr

/-- Modelled from the spec: the DHCPv4-socket state visible to this layer. -/
structure Dhcpv4Socket where
  readyToSend : Bool
  deadline : Option Instant
deriving DecidableEq, Repr

/-- Modelled from the spec: each protocol socket's `poll_at` is a pure
function of its internal state and `ctx.now` following the §4.2 policy. -/
def RawSocket.poll_at (s : RawSocket) (cx : Context) : PollAt :=
  pollAtPolicy s.readyToSend s.deadline cx

/-- Modelled from the spec: see `RawSocket.poll_at`. -/
def IcmpSocket.poll_at (s : IcmpSocket) (cx : Context) : PollAt :=
  pollAtPolicy s.readyToSend s.deadline cx

/-- Modelled from the spec: see `RawSocket.poll_at`. -/
def UdpSocket.poll_at (s : UdpSocket) (cx : Context) : PollAt :=
  pollAtPolicy s.readyToSend s.deadline cx

/-- Modelled from the spec: see `RawSocket.poll_at`. -/
def TcpSocket.poll_at (s : TcpSocket) (cx : Context) : PollAt :=
  pollAtPolicy s.readyToSend s.deadline cx

/-- Modelled from the spec: see `RawSocket.poll_at`. -/
def Dhcpv4Socket.poll_at (s : Dhcpv4Socket) (cx : Context) : PollAt :=
  pollAtPolicy s.readyToSend s.deadline cx

/-- A network socket (`Socket` enum in `mod.rs`): tagged union over the
protocol variants enabled by the crate features. All five features are
taken as enabled, matching the full variant list in the source. -/
inductive Socket where
  | Raw : RawSocket → Socket
  | Icmp : IcmpSocket → Socket
  | Udp : UdpSocket → Socket
  | Tcp : TcpSocket → Socket
  | Dhcpv4 : Dhcpv4Socket → Socket
deriving DecidableEq, Repr

/-- The discriminant of a `Socket` value: which variant is active. -/
inductive SocketTag where
  | Raw : SocketTag
  | Icmp : SocketTag
  | Udp : SocketTag
  | Tcp : SocketTag
  | Dhcpv4 : SocketTag
deriving DecidableEq, Repr

/-- The tag of the active variant of a `Socket`. -/
def Socket.tag : Socket → SocketTag
  | .Raw _ => .Raw
  | .Icmp _ => .Icmp
  | .Udp _ => .Udp
  | .Tcp _ => .Tcp
  | .Dhcpv4 _ => .Dhcpv4

/-- `Socket::poll_at` from `mod.rs`: dispatch to the active variant's own
`poll_at`. -/
def Socket.poll_at : Socket → Context → PollAt
  | .Raw s, cx => s.poll_at cx
  | .Icmp s, cx => s.poll_at cx
  | .Udp s, cx => s.poll_at cx
  | .Tcp s, cx => s.poll_at cx
  | .Dhcpv4 s, cx => s.poll_at cx

/-- `Socket::poll_at` with the Rust borrow made explicit: the method takes
`&self`, so the call yields a result together with the (unmodified) socket
value the borrow returns to the caller. Each arm rebuilds the variant it
matched, exactly as the immutable borrow leaves it. -/
def Socket.poll_at_step : Socket → Context → PollAt × Socket
  | .Raw s, cx => (s.poll_at cx, .Raw s)
  | .Icmp s, cx => (s.poll_at cx, .Icmp s)
  | .Udp s, cx => (s.poll_at cx, .Udp s)
  | .Tcp s, cx => (s.poll_at cx, .Tcp s)
  | .Dhcpv4 s, cx => (s.poll_at cx, .Dhcpv4 s)

/-- Variant discriminant used by the derived `Ord` on `PollAt`: Rust's
`derive(Ord)` compares discriminants in declaration order first. -/
def PollAt.discr : PollAt → Nat
  | .Now => 0
  | .Time _ => 1
  | .Ingress => 2

/-- The derived `Ord::cmp` on `PollAt` (`derive(PartialOrd, Ord)` in
`mod.rs`): lexicographic on the discriminant, then on the `Instant`
payload when both sides are `Time`. -/
def PollAt.cmp (a b : PollAt) : Ordering :=
  match a, b with
  | .Time t1, .Time t2 =>
      if t1 < t2 then .lt else if t1 = t2 then .eq else .gt
  | _, _ =>
      if a.discr < b.discr then .lt
      else if a.discr = b.discr then .eq else .gt

/-- The `<=` of the derived order: `cmp` does not return `Greater`. -/
def PollAt.leb (a b : PollAt) : Bool :=
  match PollAt.cmp a b with
  | .gt => false
  | _ => true

/-- `Ord::min` on two `PollAt` values under the derived order. -/
def PollAt.minP (a b : PollAt) : PollAt :=
  if PollAt.leb a b then a else b

/-- Minimum of a nonempty collection of `PollAt` values, as the event
loop computes its next wake deadline. -/
def PollAt.listMin (p : PollAt) (l : List PollAt) : PollAt :=
  l.foldl PollAt.minP p

/-- A conversion capability for network sockets (`AnySocket` trait in
`mod.rs`): total upcast into the sum type, possibly-failing downcast out
of it. The Rust `downcast` returns `Option<&mut Self>`; in the embedding
references become values. -/
class AnySocket (α : Type) where
  upcast : α → Socket
  downcast : Socket → Option α

/-- `from_socket!(RawSocket, Raw)` instantiation from `mod.rs`. -/
instance : AnySocket RawSocket where
  upcast s := Socket.Raw s
  downcast s :=
    match s with
    | Socket.Raw s => some s
    | _ => none

/-- `from_socket!(IcmpSocket, Icmp)` instantiation from `mod.rs`. -/
instance : AnySocket IcmpSocket where
  upcast s := Socket.Icmp s
  downcast s :=
    match s with
    | Socket.Icmp s => some s
    | _ => none

/-- `from_socket!(UdpSocket, Udp)` instantiation from `mod.rs`. -/
instance : AnySocket UdpSocket where
  upcast s := Socket.Udp s
  downcast s :=
    match s with
    | Socket.Udp s => some s
    | _ => none

/-- `from_socket!(TcpSocket, Tcp)` instantiation from `mod.rs`. -/
instance : AnySocket TcpSocket where
  upcast s := Socket.Tcp s
  downcast s :=
    match s with
    | Socket.Tcp s => some s
    | _ => none

/-- `from_socket!(Dhcpv4Socket, Dhcpv4)` instantiation from `mod.rs`. -/
instance : AnySocket Dhcpv4Socket where
  upcast s := Socket.Dhcpv4 s
  downcast s :=
    match s with
    | Socket.Dhcpv4 s => some s
    | _ => none

/-- Modelled from the spec: per-slot bookkeeping paired 1:1 with a stored
socket (`Meta`, in the `meta` module that is outside the excerpt): the
slot's current generation, used for handle/generation tracking. -/
structure Meta where
  gen : Nat
deriving DecidableEq, Repr

/-- Modelled from the spec: the opaque, copyable, equality-comparable
arena handle (`Handle`, exported as `SocketHandle`; the `set` module is
outside the excerpt): slot index plus generation tag, valid iff the
generation matches the slot's current generation. -/
structure SocketHandle where
  index : Nat
  gen : Nat
deriving DecidableEq, Repr

/-- Modelled from the spec: one arena slot, a `(Meta, Socket)` pairing
whose entry is empty while the slot is free. -/
structure Slot where
  meta : Meta
  entry : Option Socket
deriving DecidableEq, Repr

/-- Modelled from the spec: the socket arena (`Set`, exported as
`SocketSet`; the `set` module is outside the excerpt): a bounded
collection of slots, each operation preserving the slot count. -/
structure SocketSet where
  slots : List Slot
deriving DecidableEq, Repr

/-- Modelled from the spec: the arena's error taxonomy — capacity
exhaustion on `add`, stale-handle access on `get` and `remove`. -/
inductive SetError where
  | capacity : SetError
  | staleHandle : SetError
deriving DecidableEq, Repr

/-- An empty arena of capacity n: every slot free at generation 0. -/
def SocketSet.empty (n : Nat) : SocketSet :=
  ⟨List.replicate n ⟨⟨0⟩, none⟩⟩

/-- Modelled from the spec: `get(handle)` returns the stored socket when
the handle's generation matches the slot's current generation and the
slot is occupied, and fails with the stale-handle condition otherwise. -/
def SocketSet.get (s : SocketSet) (h : SocketHandle) :
    Except SetError Socket :=
  match s.slots[h.index]? with
  | some slot =>
      match slot.entry with
      | some sock =>
          if slot.meta.gen = h.gen then .ok sock
          else .error .staleHandle
      | none => .error .staleHandle
  | none => .error .staleHandle

/-- Modelled from the spec: the slot-search step of `add` — insert into
the first free slot, reusing removed ones; `none` when every slot is
occupied. Returns the chosen index, that slot's current generation, and
the updated slot list. -/
def addAux (slots : List Slot) (sock : Socket) :
    Option (Nat × Nat × List Slot) :=
  match slots with
  | [] => none
  | slot :: rest =>
      if slot.entry = none then
        some (0, slot.meta.gen, { slot with entry := some sock } :: rest)
      else
        (addAux rest sock).map fun r => (r.1 + 1, r.2.1, slot :: r.2.2)

/-- Modelled from the spec: `add(socket)` inserts into a free slot and
returns a handle carrying the slot's generation tag; when the arena is
full it fails with the capacity condition, leaving the arena unchanged. -/
def SocketSet.add (s : SocketSet) (sock : Socket) :
    Except SetError SocketHandle × SocketSet :=
  match addAux s.slots sock with
  | some r => (.ok ⟨r.1, r.2.1⟩, ⟨r.2.2⟩)
  | none => (.error .capacity, s)

/-- Modelled from the spec: `remove(handle)` evicts the slot, bumps its
generation (invalidating all outstanding copies of the old handle) and
returns the removed socket; a generation mismatch or an already-free slot
is the stale-handle condition and leaves the arena unchanged. -/
def SocketSet.remove (s : SocketSet) (h : SocketHandle) :
    Except SetError Socket × SocketSet :=
  match s.slots[h.index]? with
  | some slot =>
      match slot.entry with
      | some sock =>
          if slot.meta.gen = h.gen then
            (.ok sock,
             ⟨s.slots.set h.index ⟨⟨slot.meta.gen + 1⟩, none⟩⟩)
          else (.error .staleHandle, s)
      | none => (.error .staleHandle, s)
  | none => (.error .staleHandle, s)

/-- An arena operation: add a socket or remove a handle. -/
inductive SetOp where
  | add : Socket → SetOp
  | remove : SocketHandle → SetOp

/-- Apply one arena operation, keeping the resulting state (a failed
operation leaves the state unchanged). -/
def SocketSet.applyOp (s : SocketSet) : SetOp → SocketSet
  | .add sock => (s.add sock).2
  | .remove h => (s.remove h).2

/-- Apply a finite sequence of arena operations. -/
def SocketSet.applyOps (s : SocketSet) (ops : List SetOp) : SocketSet :=
  ops.foldl SocketSet.applyOp s

end SmolTcp

namespace SmolTcp

/-- Claim C1: for every concrete protocol socket type P and value p,
downcasting the upcast of p back to P yields `some p` (the original state
unchanged), and downcasting that same upcast value to any of the four
other concrete types yields `none`. -/
theorem downcast_upcast_roundtrip :
    (∀ p : RawSocket,
      AnySocket.downcast (AnySocket.upcast p) = some p ∧
      (AnySocket.downcast (AnySocket.upcast p) : Option IcmpSocket) = none ∧
      (AnySocket.downcast (AnySocket.upcast p) : Option UdpSocket) = none ∧
      (AnySocket.downcast (AnySocket.upcast p) : Option TcpSocket) = none ∧
      (AnySocket.downcast (AnySocket.upcast p) : Option Dhcpv4Socket) = none) ∧
    (∀ p : IcmpSocket,
      AnySocket.downcast (AnySocket.upcast p) = some p ∧
      (AnySocket.downcast (AnySocket.upcast p) : Option RawSocket) = none ∧
      (AnySocket.downcast (AnySocket.upcast p) : Option UdpSocket) = none ∧
      (AnySocket.downcast (AnySocket.upcast p) : Option TcpSocket) = none ∧
      (AnySocket.downcast (AnySocket.upcast p) : Option Dhcpv4Socket) = none) ∧
    (∀ p : UdpSocket,
      AnySocket.downcast (AnySocket.upcast p) = some p ∧
      (AnySocket.downcast (AnySocket.upcast p) : Option RawSocket) = none ∧
      (AnySocket.downcast (AnySocket.upcast p) : Option IcmpSocket) = none ∧
      (AnySocket.downcast (AnySocket.upcast p) : Option TcpSocket) = none ∧
      (AnySocket.downcast (AnySocket.upcast p) : Option Dhcpv4Socket) = none) ∧
    (∀ p : TcpSocket,
      AnySocket.downcast (AnySocket.upcast p) = some p ∧
      (AnySocket.downcast (AnySocket.upcast p) : Option RawSocket) = none ∧
      (AnySocket.downcast (AnySocket.upcast p) : Option IcmpSocket) = none ∧
      (AnySocket.downcast (AnySocket.upcast p) : Option UdpSocket) = none ∧
      (AnySocket.downcast (AnySocket.upcast p) : Option Dhcpv4Socket) = none) ∧
    (∀ p : Dhcpv4Socket,
      AnySocket.downcast (AnySocket.upcast p) = some p ∧
      (AnySocket.downcast (AnySocket.upcast p) : Option RawSocket) = none ∧
      (AnySocket.downcast (AnySocket.upcast p) : Option IcmpSocket) = none ∧
      (AnySocket.downcast (AnySocket.upcast p) : Option UdpSocket) = none ∧
      (AnySocket.downcast (AnySocket.upcast p) : Option TcpSocket) = none) :=
  ⟨fun _ => ⟨rfl, rfl, rfl, rfl, rfl⟩,
   fun _ => ⟨rfl, rfl, rfl, rfl, rfl⟩,
   fun _ => ⟨rfl, rfl, rfl, rfl, rfl⟩,
   fun _ => ⟨rfl, rfl, rfl, rfl, rfl⟩,
   fun _ => ⟨rfl, rfl, rfl, rfl, rfl⟩⟩

/-- Claim C3: `Socket::poll_at` returns exactly the result of the active
variant's own `poll_at` applied to the context, for each of the five
variants; the wrapper performs no behavior of its own beyond dispatch. -/
theorem socket_poll_at_dispatch :
    (∀ (s : RawSocket) (cx : Context),
      Socket.poll_at (.Raw s) cx = s.poll_at cx) ∧
    (∀ (s : IcmpSocket) (cx : Context),
      Socket.poll_at (.Icmp s) cx = s.poll_at cx) ∧
    (∀ (s : UdpSocket) (cx : Context),
      Socket.poll_at (.Udp s) cx = s.poll_at cx) ∧
    (∀ (s : TcpSocket) (cx : Context),
      Socket.poll_at (.Tcp s) cx = s.poll_at cx) ∧
    (∀ (s : Dhcpv4Socket) (cx : Context),
      Socket.poll_at (.Dhcpv4 s) cx = s.poll_at cx) :=
  ⟨fun _ _ => rfl, fun _ _ => rfl, fun _ _ => rfl,
   fun _ _ => rfl, fun _ _ => rfl⟩

/-- Claim C4: for every `Socket` value, `downcast` to a concrete type P
yields `some` exactly when the active tag is P's variant, and the plain
`none` (not a panic or error) on every mismatch. -/
theorem downcast_tag_match (s : Socket) :
    ((AnySocket.downcast s : Option RawSocket).isSome ↔ s.tag = .Raw) ∧
    ((AnySocket.downcast s : Option IcmpSocket).isSome ↔ s.tag = .Icmp) ∧
    ((AnySocket.downcast s : Option UdpSocket).isSome ↔ s.tag = .Udp) ∧
    ((AnySocket.downcast s : Option TcpSocket).isSome ↔ s.tag = .Tcp) ∧
    ((AnySocket.downcast s : Option Dhcpv4Socket).isSome ↔ s.tag = .Dhcpv4) := by
  cases s <;>
    exact ⟨by simp [AnySocket.downcast, Socket.tag],
            by simp [AnySocket.downcast, Socket.tag],
            by simp [AnySocket.downcast, Socket.tag],
            by simp [AnySocket.downcast, Socket.tag],
            by simp [AnySocket.downcast, Socket.tag]⟩

/-- Claim C5: `upcast` is a total Lean function on each of the five
concrete types (hence infallible), the upcast of every value carries
exactly the tag associated with its type, and no two distinct concrete
types map to the same tag. -/
theorem upcast_total_tags :
    (∀ p : RawSocket, (AnySocket.upcast p).tag = .Raw) ∧
    (∀ p : IcmpSocket, (AnySocket.upcast p).tag = .Icmp) ∧
    (∀ p : UdpSocket, (AnySocket.upcast p).tag = .Udp) ∧
    (∀ p : TcpSocket, (AnySocket.upcast p).tag = .Tcp) ∧
    (∀ p : Dhcpv4Socket, (AnySocket.upcast p).tag = .Dhcpv4) ∧
    ([SocketTag.Raw, .Icmp, .Udp, .Tcp, .Dhcpv4].Nodup) :=
  ⟨fun _ => rfl, fun _ => rfl, fun _ => rfl, fun _ => rfl, fun _ => rfl,
   by decide⟩

/-- Claim C6: `poll_at` is a pure function of the socket's state and the
context: the explicit-borrow form returns the socket unchanged, its result
agrees with `Socket.poll_at`, and two calls on equal state with equal
context return equal `PollAt` values. -/
theorem poll_at_pure (s : Socket) (cx : Context) :
    (s.poll_at_step cx).2 = s ∧
    (s.poll_at_step cx).1 = s.poll_at cx ∧
    ∀ (s' : Socket) (cx' : Context), s = s' → cx = cx' →
      s.poll_at cx = s'.poll_at cx' := by
  refine ⟨?_, ?_, ?_⟩
  · cases s <;> rfl
  · cases s <;> rfl
  · intro s' cx' hs hcx
    rw [hs, hcx]

/-- Claim C6 witness: the purity theorem at a concrete idle UDP socket and
a concrete context. -/
theorem poll_at_pure_witness :
    let s : Socket := .Udp ⟨false, none⟩
    let cx : Context :=
      ⟨0, none, none, ⟨true, true, true, true, 1500, none⟩⟩
    (s.poll_at_step cx).2 = s ∧
    (s.poll_at_step cx).1 = s.poll_at cx ∧
    s.poll_at cx = s.poll_at cx :=
  ⟨(poll_at_pure _ _).1, (poll_at_pure _ _).2.1,
   (poll_at_pure (.Udp ⟨false, none⟩)
      ⟨0, none, none, ⟨true, true, true, true, 1500, none⟩⟩).2.2
      _ _ rfl rfl⟩

/-- Claim C9: `PollAt` has exactly three states — `Now`, `Time t`, and
`Ingress` — and every value any socket's `poll_at` returns is one of
these three. -/
theorem pollat_three_states :
    (∀ p : PollAt, p = .Now ∨ (∃ t, p = .Time t) ∨ p = .Ingress) ∧
    (∀ (s : Socket) (cx : Context),
      s.poll_at cx = .Now ∨ (∃ t, s.poll_at cx = .Time t) ∨
        s.poll_at cx = .Ingress) := by
  constructor
  · intro p
    cases p with
    | Now => exact Or.inl rfl
    | Time t => exact Or.inr (Or.inl ⟨t, rfl⟩)
    | Ingress => exact Or.inr (Or.inr rfl)
  · intro s cx
    cases h : s.poll_at cx with
    | Now => exact Or.inl rfl
    | Time t => exact Or.inr (Or.inl ⟨t, rfl⟩)
    | Ingress => exact Or.inr (Or.inr rfl)

lemma PollAt.leb_refl (a : PollAt) : PollAt.leb a a = true := by
  cases a <;> simp [PollAt.leb, PollAt.cmp, PollAt.discr]

lemma PollAt.leb_time_time (t1 t2 : Instant) :
    PollAt.leb (.Time t1) (.Time t2) = true ↔ t1 ≤ t2 := by
  simp only [PollAt.leb, PollAt.cmp]
  split_ifs with h1 h2
  · simpa using le_of_lt h1
  · simpa using le_of_eq h2
  · simpa using fun hle => h2 (le_antisymm hle (not_lt.mp h1))

lemma PollAt.leb_now_left (a : PollAt) : PollAt.leb .Now a = true := by
  cases a <;> simp [PollAt.leb, PollAt.cmp, PollAt.discr]

lemma PollAt.leb_ingress_right (a : PollAt) :
    PollAt.leb a .Ingress = true := by
  cases a <;> simp [PollAt.leb, PollAt.cmp, PollAt.discr]

lemma PollAt.eq_now_of_leb_now (a : PollAt) (h : PollAt.leb a .Now = true) :
    a = .Now := by
  cases a <;> simp_all [PollAt.leb, PollAt.cmp, PollAt.discr]

lemma PollAt.eq_ingress_of_ingress_leb (a : PollAt)
    (h : PollAt.leb .Ingress a = true) : a = .Ingress := by
  cases a <;> simp_all [PollAt.leb, PollAt.cmp, PollAt.discr]

lemma PollAt.ne_ingress_of_leb_time (a : PollAt) (t : Instant)
    (h : PollAt.leb a (.Time t) = true) : a ≠ .Ingress := by
  cases a <;> simp_all [PollAt.leb, PollAt.cmp, PollAt.discr]

lemma PollAt.leb_trans (a b c : PollAt) (hab : PollAt.leb a b = true)
    (hbc : PollAt.leb b c = true) : PollAt.leb a c = true := by
  cases a with
  | Now => exact PollAt.leb_now_left c
  | Ingress =>
      rw [PollAt.eq_ingress_of_ingress_leb b hab] at hbc
      rw [PollAt.eq_ingress_of_ingress_leb c hbc]
      exact PollAt.leb_refl _
  | Time t =>
      cases c with
      | Ingress => exact PollAt.leb_ingress_right _
      | Now =>
          rw [PollAt.eq_now_of_leb_now b hbc] at hab
          exact absurd hab
            (by simp [PollAt.leb, PollAt.cmp, PollAt.discr])
      | Time u =>
          cases b with
          | Now =>
              exact absurd hab
                (by simp [PollAt.leb, PollAt.cmp, PollAt.discr])
          | Ingress =>
              exact absurd hbc
                (by simp [PollAt.leb, PollAt.cmp, PollAt.discr])
          | Time v =>
              exact (PollAt.leb_time_time t u).mpr
                (le_trans ((PollAt.leb_time_time t v).mp hab)
                  ((PollAt.leb_time_time v u).mp hbc))

lemma PollAt.leb_total (a b : PollAt) :
    PollAt.leb a b = true ∨ PollAt.leb b a = true := by
  cases a with
  | Now => exact Or.inl (PollAt.leb_now_left b)
  | Ingress => exact Or.inr (PollAt.leb_ingress_right b)
  | Time t =>
      cases b with
      | Now => exact Or.inr (PollAt.leb_now_left _)
      | Ingress => exact Or.inl (PollAt.leb_ingress_right _)
      | Time u =>
          rcases le_total t u with h | h
          · exact Or.inl ((PollAt.leb_time_time t u).mpr h)
          · exact Or.inr ((PollAt.leb_time_time u t).mpr h)

lemma PollAt.leb_antisymm (a b : PollAt) (hab : PollAt.leb a b = true)
    (hba : PollAt.leb b a = true) : a = b := by
  cases a with
  | Now => exact (PollAt.eq_now_of_leb_now b hba).symm
  | Ingress => exact (PollAt.eq_ingress_of_ingress_leb b hab).symm
  | Time t =>
      cases b with
      | Now =>
          exact absurd hab
            (by simp [PollAt.leb, PollAt.cmp, PollAt.discr])
      | Ingress =>
          exact absurd hba
            (by simp [PollAt.leb, PollAt.cmp, PollAt.discr])
      | Time u =>
          exact congrArg PollAt.Time
            (le_antisymm ((PollAt.leb_time_time t u).mp hab)
              ((PollAt.leb_time_time u t).mp hba))

lemma PollAt.minP_eq_or (a b : PollAt) :
    PollAt.minP a b = a ∨ PollAt.minP a b = b := by
  unfold PollAt.minP
  split_ifs <;> simp

lemma PollAt.minP_leb_left (a b : PollAt) :
    PollAt.leb (PollAt.minP a b) a = true := by
  unfold PollAt.minP
  split_ifs with h
  · exact PollAt.leb_refl a
  · rcases PollAt.leb_total a b with h' | h'
    · exact absurd h' h
    · exact h'

lemma PollAt.minP_leb_right (a b : PollAt) :
    PollAt.leb (PollAt.minP a b) b = true := by
  unfold PollAt.minP
  split_ifs with h
  · exact h
  · exact PollAt.leb_refl b

lemma PollAt.listMin_mem (p : PollAt) (l : List PollAt) :
    PollAt.listMin p l ∈ p :: l := by
  induction l generalizing p with
  | nil => simp [PollAt.listMin]
  | cons q l ih =>
      have h := ih (PollAt.minP p q)
      have hgoal : PollAt.listMin p (q :: l) =
          PollAt.listMin (PollAt.minP p q) l := rfl
      rw [hgoal]
      rcases List.mem_cons.mp h with h | h
      · rcases PollAt.minP_eq_or p q with hm | hm
        · rw [h, hm]
          exact List.mem_cons_self _ _
        · rw [h, hm]
          exact List.mem_cons.mpr (Or.inr (List.mem_cons_self _ _))
      · exact List.mem_cons.mpr (Or.inr (List.mem_cons.mpr (Or.inr h)))

lemma PollAt.listMin_leb (p : PollAt) (l : List PollAt) :
    ∀ x ∈ p :: l, PollAt.leb (PollAt.listMin p l) x = true := by
  induction l generalizing p with
  | nil =>
      intro x hx
      rw [List.mem_singleton] at hx
      rw [hx]
      exact PollAt.leb_refl p
  | cons q l ih =>
      intro x hx
      have hmin := ih (PollAt.minP p q)
      have hhead : PollAt.leb (PollAt.listMin (PollAt.minP p q) l)
          (PollAt.minP p q) = true :=
        hmin (PollAt.minP p q) (List.mem_cons_self _ _)
      have hgoal : PollAt.listMin p (q :: l) =
          PollAt.listMin (PollAt.minP p q) l := rfl
      rw [hgoal]
      rcases List.mem_cons.mp hx with hx | hx
      · rw [hx]
        exact PollAt.leb_trans _ _ _ hhead (PollAt.minP_leb_left p q)
      rcases List.mem_cons.mp hx with hx | hx
      · rw [hx]
        exact PollAt.leb_trans _ _ _ hhead (PollAt.minP_leb_right p q)
      · exact hmin x (List.mem_cons.mpr (Or.inr hx))

/-- Claim C10: the derived comparison on `PollAt` is a total order in
which `Now` sits below every `Time t`, every `Time t` sits below
`Ingress`, and two `Time` values compare exactly as their instants do;
consequently the minimum over a nonempty collection of `PollAt` values is
`Now` when some socket demands immediate polling, else the earliest
`Time` deadline present, else `Ingress`. -/
theorem pollat_derived_order :
    (∀ t : Instant, PollAt.leb .Now (.Time t) = true ∧
      PollAt.leb (.Time t) .Now = false) ∧
    (∀ t : Instant, PollAt.leb (.Time t) .Ingress = true ∧
      PollAt.leb .Ingress (.Time t) = false) ∧
    (∀ t1 t2 : Instant,
      PollAt.leb (.Time t1) (.Time t2) = true ↔ t1 ≤ t2) ∧
    (∀ a, PollAt.leb a a = true) ∧
    (∀ a b, PollAt.leb a b = true → PollAt.leb b a = true → a = b) ∧
    (∀ a b c, PollAt.leb a b = true → PollAt.leb b c = true →
      PollAt.leb a c = true) ∧
    (∀ a b, PollAt.leb a b = true ∨ PollAt.leb b a = true) ∧
    (∀ (p : PollAt) (l : List PollAt),
      (PollAt.Now ∈ p :: l → PollAt.listMin p l = .Now) ∧
      (PollAt.Now ∉ p :: l → ∀ u : Instant, PollAt.Time u ∈ p :: l →
        ∃ t0 : Instant, PollAt.listMin p l = .Time t0 ∧
          PollAt.Time t0 ∈ p :: l ∧
          ∀ v : Instant, PollAt.Time v ∈ p :: l → t0 ≤ v) ∧
      ((∀ x ∈ p :: l, x = PollAt.Ingress) →
        PollAt.listMin p l = .Ingress)) := by
  refine ⟨?_, ?_, PollAt.leb_time_time, PollAt.leb_refl,
    PollAt.leb_antisymm, PollAt.leb_trans, PollAt.leb_total, ?_⟩
  · intro t
    exact ⟨PollAt.leb_now_left _,
      by simp [PollAt.leb, PollAt.cmp, PollAt.discr]⟩
  · intro t
    exact ⟨PollAt.leb_ingress_right _,
      by simp [PollAt.leb, PollAt.cmp, PollAt.discr]⟩
  · intro p l
    refine ⟨?_, ?_, ?_⟩
    · intro hmem
      exact PollAt.eq_now_of_leb_now _ (PollAt.listMin_leb p l _ hmem)
    · intro hnow u hu
      have hm := PollAt.listMin_mem p l
      have hleb := PollAt.listMin_leb p l (.Time u) hu
      have hni := PollAt.ne_ingress_of_leb_time _ u hleb
      cases hmin : PollAt.listMin p l with
      | Now => exact absurd (hmin ▸ hm) hnow
      | Ingress => exact absurd hmin hni
      | Time t0 =>
          refine ⟨t0, rfl, hmin ▸ hm, ?_⟩
          intro v hv
          exact (PollAt.leb_time_time t0 v).mp
            (hmin ▸ PollAt.listMin_leb p l (.Time v) hv)
    · intro hall
      exact hall _ (PollAt.listMin_mem p l)

/-- Claim C10 witness: the minimum characterization evaluated on concrete
lists containing a `Now`, only `Time` deadlines, and only `Ingress`. -/
theorem pollat_derived_order_witness :
    PollAt.listMin .Ingress [.Time 3, .Now] = .Now ∧
    (∃ t0 : Instant,
      PollAt.listMin .Ingress [.Time 3, .Time 5] = .Time t0 ∧
      PollAt.Time t0 ∈ [PollAt.Ingress, .Time 3, .Time 5] ∧
      ∀ v : Instant,
        PollAt.Time v ∈ [PollAt.Ingress, .Time 3, .Time 5] → t0 ≤ v) ∧
    PollAt.listMin .Ingress [.Ingress] = .Ingress :=
  ⟨(pollat_derived_order.2.2.2.2.2.2.2 .Ingress [.Time 3, .Now]).1
      (by simp),
   (pollat_derived_order.2.2.2.2.2.2.2 .Ingress [.Time 3, .Time 5]).2.1
      (by simp) 3 (by simp),
   (pollat_derived_order.2.2.2.2.2.2.2 .Ingress [.Ingress]).2.2
      (by simp)⟩

lemma addAux_some (sock : Socket) :
    ∀ (slots : List Slot) (i g : Nat) (slots' : List Slot),
      addAux slots sock = some (i, g, slots') →
      ∃ slot, slots[i]? = some slot ∧ slot.entry = none ∧
        g = slot.meta.gen ∧
        slots' = slots.set i { slot with entry := some sock } := by
  intro slots
  induction slots with
  | nil =>
      intro i g slots' h
      simp [addAux] at h
  | cons slot rest ih =>
      intro i g slots' h
      by_cases he : slot.entry = none
      · simp only [addAux] at h
        rw [if_pos he] at h
        simp only [Option.some.injEq, Prod.mk.injEq] at h
        obtain ⟨h1, h2, h3⟩ := h
        subst h1
        subst h2
        subst h3
        exact ⟨slot, List.getElem?_cons_zero, he, rfl, rfl⟩
      · simp only [addAux] at h
        rw [if_neg he] at h
        rw [Option.map_eq_some'] at h
        obtain ⟨r, hr, hf⟩ := h
        obtain ⟨slot0, hs0, he0, hg0, hset0⟩ :=
          ih r.1 r.2.1 r.2.2 (by rw [hr])
        simp only [Prod.mk.injEq] at hf
        obtain ⟨h1, h2, h3⟩ := hf
        subst h1
        subst h2
        subst h3
        refine ⟨slot0, ?_, he0, hg0, ?_⟩
        · rw [List.getElem?_cons_succ]
          exact hs0
        · rw [hset0]
          rfl

lemma addAux_none (sock : Socket) :
    ∀ slots : List Slot, addAux slots sock = none ↔
      ∀ slot ∈ slots, slot.entry ≠ none := by
  intro slots
  induction slots with
  | nil => simp [addAux]
  | cons slot rest ih =>
      by_cases he : slot.entry = none
      · simp [addAux, he]
      · simp only [addAux]
        rw [if_neg he, Option.map_eq_none', ih]
        constructor
        · intro hall x hx
          rcases List.mem_cons.mp hx with hx | hx
          · rw [hx]
            exact he
          · exact hall x hx
        · intro hall x hx
          exact hall x (List.mem_cons.mpr (Or.inr hx))

lemma add_ok (s : SocketSet) (sock : Socket) (h' : SocketHandle)
    (s3 : SocketSet) (hadd : s.add sock = (.ok h', s3)) :
    ∃ slot, s.slots[h'.index]? = some slot ∧ slot.entry = none ∧
      h'.gen = slot.meta.gen ∧
      s3 = ⟨s.slots.set h'.index { slot with entry := some sock }⟩ := by
  unfold SocketSet.add at hadd
  cases haux : addAux s.slots sock with
  | none =>
      rw [haux] at hadd
      simp at hadd
  | some r =>
      rw [haux] at hadd
      obtain ⟨slot, h1, h2, h3, h4⟩ :=
        addAux_some sock s.slots r.1 r.2.1 r.2.2 (by rw [haux])
      simp only [Prod.mk.injEq, Except.ok.injEq] at hadd
      obtain ⟨hh, hs3⟩ := hadd
      subst hh
      subst hs3
      exact ⟨slot, h1, h2, h3, by rw [h4]⟩

lemma remove_ok (s : SocketSet) (h : SocketHandle) (sock : Socket)
    (s' : SocketSet) (hrem : s.remove h = (.ok sock, s')) :
    ∃ slot, s.slots[h.index]? = some slot ∧ slot.entry = some sock ∧
      slot.meta.gen = h.gen ∧
      s' = ⟨s.slots.set h.index ⟨⟨h.gen + 1⟩, none⟩⟩ := by
  cases hs : s.slots[h.index]? with
  | none =>
      rw [SocketSet.remove, hs] at hrem
      simp at hrem
  | some slot =>
      cases he : slot.entry with
      | none =>
          rw [SocketSet.remove, hs] at hrem
          simp only [he] at hrem
          simp at hrem
      | some sock0 =>
          rw [SocketSet.remove, hs] at hrem
          simp only [he] at hrem
          by_cases hg : slot.meta.gen = h.gen
          · rw [if_pos hg] at hrem
            simp only [Prod.mk.injEq, Except.ok.injEq] at hrem
            obtain ⟨hsock, hs'⟩ := hrem
            subst hsock
            subst hs'
            exact ⟨slot, rfl, he, hg, by rw [hg]⟩
          · rw [if_neg hg] at hrem
            simp at hrem

lemma get_of_slot (s : SocketSet) (h : SocketHandle) (slot : Slot)
    (sock : Socket) (hs : s.slots[h.index]? = some slot)
    (he : slot.entry = some sock) (hg : slot.meta.gen = h.gen) :
    s.get h = .ok sock := by
  rw [SocketSet.get, hs]
  simp only [he]
  rw [if_pos hg]

lemma get_stale_entry_none (s : SocketSet) (h : SocketHandle)
    (slot : Slot) (hs : s.slots[h.index]? = some slot)
    (he : slot.entry = none) : s.get h = .error .staleHandle := by
  rw [SocketSet.get, hs]
  simp only [he]

lemma get_stale_of_gen_lt (s : SocketSet) (h : SocketHandle)
    (slot : Slot) (hs : s.slots[h.index]? = some slot)
    (hgt : h.gen < slot.meta.gen) : s.get h = .error .staleHandle := by
  rw [SocketSet.get, hs]
  cases he : slot.entry with
  | none => simp only [he]
  | some sock =>
      simp only [he]
      rw [if_neg]
      intro hg
      rw [hg] at hgt
      exact lt_irrefl _ hgt

lemma get_ok_inv (s : SocketSet) (h : SocketHandle) (v : Socket)
    (hget : s.get h = .ok v) :
    ∃ slot, s.slots[h.index]? = some slot ∧
      slot.meta.gen = h.gen ∧ slot.entry = some v := by
  cases hs : s.slots[h.index]? with
  | none =>
      rw [SocketSet.get, hs] at hget
      simp at hget
  | some slot =>
      cases he : slot.entry with
      | none =>
          rw [SocketSet.get, hs] at hget
          simp only [he] at hget
          simp at hget
      | some sock =>
          rw [SocketSet.get, hs] at hget
          simp only [he] at hget
          by_cases hg : slot.meta.gen = h.gen
          · rw [if_pos hg] at hget
            simp only [Except.ok.injEq] at hget
            subst hget
            exact ⟨slot, rfl, hg, he⟩
          · rw [if_neg hg] at hget
            simp at hget

lemma gen_le_applyOp (s : SocketSet) (op : SetOp) (i : Nat) (slot : Slot)
    (h : s.slots[i]? = some slot) :
    ∃ slot', (s.applyOp op).slots[i]? = some slot' ∧
      slot.meta.gen ≤ slot'.meta.gen := by
  cases op with
  | add sock =>
      cases haux : addAux s.slots sock with
      | none =>
          have hstate : s.applyOp (.add sock) = s := by
            simp [SocketSet.applyOp, SocketSet.add, haux]
          rw [hstate]
          exact ⟨slot, h, le_refl _⟩
      | some r =>
          obtain ⟨slot0, hs0, he0, hg0, hset0⟩ :=
            addAux_some sock s.slots r.1 r.2.1 r.2.2 (by rw [haux])
          have happ : (s.applyOp (.add sock)).slots =
              s.slots.set r.1 { slot0 with entry := some sock } := by
            simp only [SocketSet.applyOp, SocketSet.add, haux]
            exact hset0
          rw [happ]
          by_cases hi : i = r.1
          · subst hi
            rw [h] at hs0
            obtain rfl := Option.some.inj hs0
            exact ⟨{ slot with entry := some sock },
              List.getElem?_set_self (List.getElem?_eq_some.mp h).1,
              le_refl _⟩
          · rw [List.getElem?_set_ne (Ne.symm hi)]
            exact ⟨slot, h, le_refl _⟩
  | remove h0 =>
      cases hs : s.slots[h0.index]? with
      | none =>
          have hstate : s.applyOp (.remove h0) = s := by
            simp [SocketSet.applyOp, SocketSet.remove, hs]
          rw [hstate]
          exact ⟨slot, h, le_refl _⟩
      | some slotr =>
          cases he : slotr.entry with
          | none =>
              have hstate : s.applyOp (.remove h0) = s := by
                simp [SocketSet.applyOp, SocketSet.remove, hs, he]
              rw [hstate]
              exact ⟨slot, h, le_refl _⟩
          | some sock =>
              by_cases hg : slotr.meta.gen = h0.gen
              · have happ : (s.applyOp (.remove h0)).slots =
                    s.slots.set h0.index ⟨⟨slotr.meta.gen + 1⟩, none⟩ := by
                  simp only [SocketSet.applyOp, SocketSet.remove, hs, he]
                  rw [if_pos hg]
                rw [happ]
                by_cases hi : i = h0.index
                · subst hi
                  rw [h] at hs
                  obtain rfl := Option.some.inj hs
                  exact ⟨⟨⟨slot.meta.gen + 1⟩, none⟩,
                    List.getElem?_set_self (List.getElem?_eq_some.mp h).1,
                    Nat.le_succ _⟩
                · rw [List.getElem?_set_ne (Ne.symm hi)]
                  exact ⟨slot, h, le_refl _⟩
              · have hstate : s.applyOp (.remove h0) = s := by
                  simp [SocketSet.applyOp, SocketSet.remove, hs, he, hg]
                rw [hstate]
                exact ⟨slot, h, le_refl _⟩

lemma gen_le_applyOps (ops : List SetOp) :
    ∀ (s : SocketSet) (i : Nat) (slot : Slot),
      s.slots[i]? = some slot →
      ∃ slot', (s.applyOps ops).slots[i]? = some slot' ∧
        slot.meta.gen ≤ slot'.meta.gen := by
  induction ops with
  | nil =>
      intro s i slot h
      exact ⟨slot, h, le_refl _⟩
  | cons op ops ih =>
      intro s i slot h
      obtain ⟨slot1, h1, hle1⟩ := gen_le_applyOp s op i slot h
      obtain ⟨slot2, h2, hle2⟩ := ih (s.applyOp op) i slot1 h1
      exact ⟨slot2, h2, le_trans hle1 hle2⟩

/-- Claim C2: after a successful `remove(h)`, both `get(h)` and a second
`remove(h)` fail with the stale-handle condition; and after any further
sequence of arena operations, an `add` that reuses h's slot returns a
handle distinct from h, under which `get` succeeds while `get(h)` still
fails. -/
theorem stale_handle_rejection (s : SocketSet) (h : SocketHandle)
    (sock : Socket) (s' : SocketSet)
    (hrem : s.remove h = (.ok sock, s')) :
    (s'.get h = .error .staleHandle ∧
     s'.remove h = (.error .staleHandle, s')) ∧
    ∀ (ops : List SetOp) (sock2 : Socket) (h' : SocketHandle)
      (s3 : SocketSet),
      (s'.applyOps ops).add sock2 = (.ok h', s3) →
      h'.index = h.index →
      h' ≠ h ∧ s3.get h = .error .staleHandle ∧ s3.get h' = .ok sock2 := by
  obtain ⟨slot, hs, he, hg, hs'⟩ := remove_ok s h sock s' hrem
  have hlen : h.index < s.slots.length := (List.getElem?_eq_some.mp hs).1
  have hs'slot : s'.slots[h.index]? = some ⟨⟨h.gen + 1⟩, none⟩ := by
    rw [hs']
    exact List.getElem?_set_self hlen
  constructor
  · constructor
    · exact get_stale_entry_none s' h _ hs'slot rfl
    · rw [SocketSet.remove, hs'slot]
  · intro ops sock2 h' s3 hadd hidx
    obtain ⟨slot2, hsl2, hle2⟩ :=
      gen_le_applyOps ops s' h.index ⟨⟨h.gen + 1⟩, none⟩ hs'slot
    obtain ⟨slot3, hs3, he3, hg3, hset3⟩ :=
      add_ok (s'.applyOps ops) sock2 h' s3 hadd
    have hlen2 : h'.index < (s'.applyOps ops).slots.length :=
      (List.getElem?_eq_some.mp hs3).1
    have hs3' := hs3
    rw [hidx, hsl2] at hs3'
    obtain hslot := Option.some.inj hs3'
    subst hslot
    have hlt : h.gen < h'.gen := by
      rw [hg3]
      exact lt_of_lt_of_le (Nat.lt_succ_self _) hle2
    have hs3at : s3.slots[h'.index]? =
        some { slot2 with entry := some sock2 } := by
      rw [hset3]
      exact List.getElem?_set_self hlen2
    have hs3ath : s3.slots[h.index]? =
        some { slot2 with entry := some sock2 } := by
      rw [← hidx]
      exact hs3at
    refine ⟨?_, ?_, ?_⟩
    · intro heq
      exact ne_of_gt hlt (congrArg SocketHandle.gen heq)
    · exact get_stale_of_gen_lt s3 h _ hs3ath (hg3 ▸ hlt)
    · exact get_of_slot s3 h' _ sock2 hs3at rfl hg3.symm

/-- Claim C2 witness: a one-slot arena holding a UDP socket; removing
handle (0,0), then re-adding an ICMP socket, exercises every hypothesis
of the stale-handle theorem at concrete inputs. -/
theorem stale_handle_rejection_witness :
    ((⟨[⟨⟨1⟩, none⟩]⟩ : SocketSet).get ⟨0, 0⟩ = .error .staleHandle ∧
     (⟨[⟨⟨1⟩, none⟩]⟩ : SocketSet).remove ⟨0, 0⟩ =
       (.error .staleHandle, ⟨[⟨⟨1⟩, none⟩]⟩)) ∧
    ((⟨0, 1⟩ : SocketHandle) ≠ ⟨0, 0⟩ ∧
     (⟨[⟨⟨1⟩, some (Socket.Icmp ⟨false, none⟩)⟩]⟩ : SocketSet).get ⟨0, 0⟩ =
       .error .staleHandle ∧
     (⟨[⟨⟨1⟩, some (Socket.Icmp ⟨false, none⟩)⟩]⟩ : SocketSet).get ⟨0, 1⟩ =
       .ok (Socket.Icmp ⟨false, none⟩)) :=
  ⟨(stale_handle_rejection ⟨[⟨⟨0⟩, some (Socket.Udp ⟨false, none⟩)⟩]⟩
      ⟨0, 0⟩ (Socket.Udp ⟨false, none⟩) ⟨[⟨⟨1⟩, none⟩]⟩ rfl).1,
   (stale_handle_rejection ⟨[⟨⟨0⟩, some (Socket.Udp ⟨false, none⟩)⟩]⟩
      ⟨0, 0⟩ (Socket.Udp ⟨false, none⟩) ⟨[⟨⟨1⟩, none⟩]⟩ rfl).2
      [] (Socket.Icmp ⟨false, none⟩) ⟨0, 1⟩
      ⟨[⟨⟨1⟩, some (Socket.Icmp ⟨false, none⟩)⟩]⟩ rfl rfl⟩

/-- Claim C7: after any finite sequence of add and remove operations on
an initially empty arena, two simultaneously live handles with the same
slot index are the same handle. -/
theorem handle_uniqueness (n : Nat) (ops : List SetOp)
    (h1 h2 : SocketHandle)
    (hl1 : ∃ v, ((SocketSet.empty n).applyOps ops).get h1 = .ok v)
    (hl2 : ∃ v, ((SocketSet.empty n).applyOps ops).get h2 = .ok v)
    (hidx : h1.index = h2.index) : h1 = h2 := by
  obtain ⟨v1, hg1⟩ := hl1
  obtain ⟨v2, hg2⟩ := hl2
  obtain ⟨slot1, hs1, hgen1, _⟩ := get_ok_inv _ _ _ hg1
  obtain ⟨slot2, hs2, hgen2, _⟩ := get_ok_inv _ _ _ hg2
  rw [hidx, hs2] at hs1
  obtain hslot := Option.some.inj hs1
  have hgen : h1.gen = h2.gen := by
    rw [← hgen1, ← hgen2, hslot]
  cases h1
  cases h2
  exact congrArg₂ SocketHandle.mk hidx hgen

/-- Claim C7 witness: the uniqueness theorem at a concrete one-slot arena
after one add, with both handles equal to the issued handle (0,0). -/
theorem handle_uniqueness_witness :
    (⟨0, 0⟩ : SocketHandle) = ⟨0, 0⟩ :=
  handle_uniqueness 1 [SetOp.add (Socket.Udp ⟨false, none⟩)]
    ⟨0, 0⟩ ⟨0, 0⟩
    ⟨Socket.Udp ⟨false, none⟩, rfl⟩ ⟨Socket.Udp ⟨false, none⟩, rfl⟩ rfl

/-- Claim C8: when a free slot exists, `add` inserts the socket into such
a slot (reusing removed slots), returns a handle carrying that slot's
current generation tag under which `get` succeeds, and leaves every other
slot and the arena's capacity unchanged; when every slot is occupied,
`add` fails with the capacity condition and the arena is unchanged. -/
theorem set_add_spec (s : SocketSet) (sock : Socket) :
    ((∃ slot ∈ s.slots, slot.entry = none) →
      ∃ i g s', s.add sock = (.ok ⟨i, g⟩, s') ∧
        (∃ slot, s.slots[i]? = some slot ∧ slot.entry = none ∧
          g = slot.meta.gen) ∧
        s'.get ⟨i, g⟩ = .ok sock ∧
        (∀ j, j ≠ i → s'.slots[j]? = s.slots[j]?) ∧
        s'.slots.length = s.slots.length) ∧
    ((∀ slot ∈ s.slots, slot.entry ≠ none) →
      (s.add sock).1 = .error .capacity ∧ (s.add sock).2 = s) := by
  constructor
  · intro hfree
    cases haux : addAux s.slots sock with
    | none =>
        obtain ⟨slot, hmem, he⟩ := hfree
        exact absurd he ((addAux_none sock s.slots).mp haux slot hmem)
    | some r =>
        obtain ⟨slot, hs, he, hg, hset⟩ :=
          addAux_some sock s.slots r.1 r.2.1 r.2.2 (by rw [haux])
        refine ⟨r.1, r.2.1, ⟨r.2.2⟩, ?_, ⟨slot, hs, he, hg⟩, ?_, ?_, ?_⟩
        · rw [SocketSet.add, haux]
        · apply get_of_slot _ _ { slot with entry := some sock }
          · show r.2.2[r.1]? = _
            rw [hset]
            exact List.getElem?_set_self (List.getElem?_eq_some.mp hs).1
          · rfl
          · show slot.meta.gen = r.2.1
            rw [hg]
        · intro j hj
          show r.2.2[j]? = s.slots[j]?
          rw [hset]
          exact List.getElem?_set_ne (Ne.symm hj)
        · show r.2.2.length = s.slots.length
          rw [hset]
          exact List.length_set _ _ _
  · intro hfull
    have haux : addAux s.slots sock = none :=
      (addAux_none sock s.slots).mpr hfull
    constructor <;> rw [SocketSet.add, haux]

/-- Claim C8 witness: `add` on a one-slot empty arena succeeds with the
full insertion contract, and `add` on a full one-slot arena fails with
the capacity condition, leaving the arena unchanged. -/
theorem set_add_spec_witness :
    (∃ i g s', (SocketSet.empty 1).add (Socket.Udp ⟨false, none⟩) =
        (.ok ⟨i, g⟩, s') ∧
      (∃ slot, (SocketSet.empty 1).slots[i]? = some slot ∧
        slot.entry = none ∧ g = slot.meta.gen) ∧
      s'.get ⟨i, g⟩ = .ok (Socket.Udp ⟨false, none⟩) ∧
      (∀ j, j ≠ i → s'.slots[j]? = (SocketSet.empty 1).slots[j]?) ∧
      s'.slots.length = (SocketSet.empty 1).slots.length) ∧
    ((⟨[⟨⟨0⟩, some (Socket.Tcp ⟨false, none⟩)⟩]⟩ : SocketSet).add
        (Socket.Udp ⟨false, none⟩)).1 = .error .capacity ∧
    ((⟨[⟨⟨0⟩, some (Socket.Tcp ⟨false, none⟩)⟩]⟩ : SocketSet).add
        (Socket.Udp ⟨false, none⟩)).2 =
      ⟨[⟨⟨0⟩, some (Socket.Tcp ⟨false, none⟩)⟩]⟩ :=
  ⟨(set_add_spec (SocketSet.empty 1) (Socket.Udp ⟨false, none⟩)).1
      ⟨⟨⟨0⟩, none⟩, by decide, rfl⟩,
   ((set_add_spec ⟨[⟨⟨0⟩, some (Socket.Tcp ⟨false, none⟩)⟩]⟩
      (Socket.Udp ⟨false, none⟩)).2 (by decide)).1,
   ((set_add_spec ⟨[⟨⟨0⟩, some (Socket.Tcp ⟨false, none⟩)⟩]⟩
      (Socket.Udp ⟨false, none⟩)).2 (by decide)).2⟩

end SmolTcp
